import Mathlib

/-!
Shallow embedding of the ATmega128 firmware RTOS core
(`src/rtos/task.rs` and `src/rtos/scheduler.rs`).

Machine integers are modelled as `Nat` with explicit `% 2^w` where the
source relies on the wrapped width (`u8`, `u16`, `u32`).  Byte arrays and
slot tables are modelled as total functions from `Nat`, mutated with
`Function.update`; the source only ever indexes them below their fixed
capacity.  Hardware-only effects (the Timer0 registers written by `init`,
the inline-assembly `save_context`/`load_context` bodies, and the
diagnostic `statistics`/`contexts` arrays, which no scheduler decision
ever reads) are not part of the model; everything that the control
flow of the scheduler reads or writes is.  The process-wide statics `SCHEDULER_RUNNING`,
`SYSTEM_TICKS` and `NEXT_TASK_ID` are carried as fields of the scheduler
state.
-/

namespace ATmega128

/-- `task::TaskState`. -/
inductive TaskState
  | Ready
  | Running
  | Blocked
  | Suspended
deriving DecidableEq, Repr

/-- `task::EventType` — declared in the source with no variants. -/
inductive TaskEventType
deriving DecidableEq

/-- `scheduler::EventType`. The `Custom(u8)` payload is a `Nat`. -/
inductive EventType
  | Timer
  | Gpio
  | Uart
  | Adc
  | Custom (code : Nat)
deriving DecidableEq, Repr

/-- `scheduler::Event` (`data: u32`, `timestamp: u32`). -/
structure Event where
  event_type : EventType
  data : Nat
  timestamp : Nat
deriving DecidableEq, Repr

/-- `scheduler::SchedulerError`. -/
inductive SchedulerError
  | TaskLimitReached
  | TaskNotFound
  | InvalidPriority
  | AlreadyRunning
  | EventQueueFull
  | Timeout
  | NoSemaphoresAvailable
  | InvalidSemaphore
  | SemaphoreLocked
deriving DecidableEq, Repr

/-- Size of the private stack of each task (`stack: [u8; 512]`). -/
def stackSize : Nat := 512

/-- `task::TaskControl`.  `stack_ptr` is the byte offset into the
own stack of the task (the source stores a raw pointer; `stack_base` is that raw base
pointer and carries no extra information here). -/
structure TaskControl where
  id : Nat
  stack_ptr : Nat
  stack_size : Nat
  state : TaskState
  priority : Nat
  name : String
  waiting_event : Option TaskEventType
  last_wake_time : Nat
  deadline_ms : Nat

/-- `task::Task`: control block plus its 512-byte stack, modelled as a
function from byte offset to byte value. -/
structure Task where
  control : TaskControl
  stack : Nat → Nat

/-- The register-zeroing loop of `Task::init_stack`
(`for _ in 0..32 { sp = sp.sub(1); *sp = 0; }`): `n` push steps, each
decrementing the stack pointer and writing a zero byte at it. -/
def pushZeros : Nat → (Nat → Nat) → Nat → (Nat → Nat) × Nat
  | 0, st, sp => (st, sp)
  | n + 1, st, sp => pushZeros n (Function.update st (sp - 1) 0) (sp - 1)

/-- `Task::init_stack`: from the one-past-the-end offset, push the entry
address low byte then high byte (`entry as u16`), then the status
register byte `0x80` (interrupts enabled), then 32 zeroed registers;
returns the final stack contents and stack-pointer offset. -/
def initStack (entry : Nat) : (Nat → Nat) × Nat :=
  let e := entry % 65536
  let st0 : Nat → Nat := fun _ => 0
  let sp1 := stackSize - 1
  let st1 := Function.update st0 sp1 (e % 256)
  let sp2 := sp1 - 1
  let st2 := Function.update st1 sp2 (e / 256 % 256)
  let sp3 := sp2 - 1
  let st3 := Function.update st2 sp3 128
  pushZeros 32 st3 sp3

/-- `Task::new`.  The fresh id comes from the `NEXT_TASK_ID` static
(`AtomicU8::fetch_add`), passed in by the caller; the stack starts zeroed
and then receives the initial context from `init_stack`, whose returned
top becomes `stack_ptr`. -/
def Task.new (priority : Nat) (name : String) (entry : Nat) (nextId : Nat) : Task :=
  let p := initStack entry
  { control :=
      { id := nextId % 256
        stack_ptr := p.2
        stack_size := stackSize
        state := TaskState.Ready
        priority := priority
        name := name
        waiting_event := none
        last_wake_time := 0
        deadline_ms := 0 }
    stack := p.1 }

/-- Capacity of the event ring buffer (`events: [Option<Event>; 32]`). -/
def qcap : Nat := 32

/-- `scheduler::EventQueue`. -/
structure EventQueue where
  events : Nat → Option Event
  head : Nat
  tail : Nat

/-- `EventQueue::new`. -/
def EventQueue.new : EventQueue :=
  { events := fun _ => none, head := 0, tail := 0 }

/-- `EventQueue::push`: writes at `tail` and advances it unless the
advanced tail would collide with `head`; returns the updated queue and
whether the push succeeded. -/
def EventQueue.push (q : EventQueue) (event : Event) : EventQueue × Bool :=
  let next := (q.tail + 1) % qcap
  if next ≠ q.head then
    ({ q with events := Function.update q.events q.tail (some event), tail := next }, true)
  else
    (q, false)

/-- `EventQueue::pop`: takes the entry at `head` (leaving `None` behind)
and advances `head`, unless the queue is empty. -/
def EventQueue.pop (q : EventQueue) : Option Event × EventQueue :=
  if q.head ≠ q.tail then
    (q.events q.head,
     { q with events := Function.update q.events q.head none, head := (q.head + 1) % qcap })
  else
    (none, q)

/-- Number of unconsumed entries held by the ring buffer. -/
def EventQueue.size (q : EventQueue) : Nat := (qcap + q.tail - q.head) % qcap

/-- The queue contents from `head` forward, in FIFO order. -/
def EventQueue.toList (q : EventQueue) : List (Option Event) :=
  (List.range q.size).map (fun k => q.events ((q.head + k) % qcap))

/-- Index sanity for the ring buffer: both cursors below capacity.
Every queue operation preserves this. -/
def EventQueue.wfq (q : EventQueue) : Prop := q.head < qcap ∧ q.tail < qcap

/-- `scheduler::Semaphore` (`count: AtomicU8`; `waiting_tasks` and
`num_waiting` are present in the source but never read or written by any
method). -/
structure Semaphore where
  count : Nat
  waiting_tasks : Nat → Option Nat
  num_waiting : Nat

/-- `Semaphore::new`. -/
def Semaphore.new (initial : Nat) : Semaphore :=
  { count := initial % 256, waiting_tasks := fun _ => none, num_waiting := 0 }

/-- `Semaphore::acquire`: the compare-exchange retry loop, which in this
single-instruction-stream embedding is a test-and-decrement — succeed and
decrement when `count > 0`, otherwise fail leaving the count unchanged. -/
def Semaphore.acquire (s : Semaphore) : Semaphore × Bool :=
  if 0 < s.count then ({ s with count := s.count - 1 }, true) else (s, false)

/-- `Semaphore::release`: unconditional wrapped `u8` increment. -/
def Semaphore.release (s : Semaphore) : Semaphore :=
  { s with count := (s.count + 1) % 256 }

/-- `MAX_TASKS`. -/
def maxTasks : Nat := 16

/-- Wrap modulus of the `u32` tick counter. -/
def u32Mod : Nat := 4294967296

/-- Model address of the `Scheduler::idle_task` function pointer. -/
def idleEntryAddr : Nat := 0

/-- `scheduler::Scheduler`, together with the statics it reads and
writes (`scheduler_running`, `ticks`, `next_task_id`). -/
structure Scheduler where
  tasks : Nat → Option Task
  current_task : Option Nat
  next_task : Option Nat
  task_count : Nat
  idle_task_index : Option Nat
  event_queue : EventQueue
  semaphores : Nat → Semaphore
  scheduler_running : Bool
  ticks : Nat
  next_task_id : Nat

/-- `Scheduler::new`. -/
def Scheduler.new : Scheduler :=
  { tasks := fun _ => none
    current_task := none
    next_task := none
    task_count := 0
    idle_task_index := none
    event_queue := EventQueue.new
    semaphores := fun _ => Semaphore.new 0
    scheduler_running := false
    ticks := 0
    next_task_id := 0 }

/-- Linear scan shared by the slot-search loops of the source: first
index from `i`, for `k` steps, satisfying the test. -/
def firstIdxFrom (p : Nat → Bool) : Nat → Nat → Option Nat
  | _, 0 => none
  | i, k + 1 => if p i then some i else firstIdxFrom p (i + 1) k

/-- The slot-scan of `Scheduler::add_task`
(`for (i, slot) in self.tasks.iter_mut().enumerate()`): first index `i`
(starting at the given index, for `k` steps) whose slot is empty. -/
def findFreeFrom (tasks : Nat → Option Task) (i k : Nat) : Option Nat :=
  firstIdxFrom (fun j => (tasks j).isNone) i k

/-- `Scheduler::add_task`: reject when `task_count` has reached
`MAX_TASKS`, otherwise install a fresh task in the first free slot and
return its index. -/
def Scheduler.add_task (s : Scheduler) (entry : Nat) (priority : Nat) (_period_ms : Nat) :
    Except SchedulerError Nat × Scheduler :=
  if s.task_count ≥ maxTasks then (Except.error SchedulerError.TaskLimitReached, s)
  else
    let task := Task.new priority "task" entry s.next_task_id
    match findFreeFrom s.tasks 0 maxTasks with
    | some i =>
        (Except.ok i,
         { s with tasks := Function.update s.tasks i (some task)
                  task_count := s.task_count + 1
                  next_task_id := (s.next_task_id + 1) % 256 })
    | none => (Except.error SchedulerError.TaskLimitReached, s)

/-- `Scheduler::remove_task`. -/
def Scheduler.remove_task (s : Scheduler) (task_id : Nat) :
    Except SchedulerError Unit × Scheduler :=
  if task_id ≥ maxTasks ∨ (s.tasks task_id).isNone then
    (Except.error SchedulerError.TaskNotFound, s)
  else
    (Except.ok (),
     { s with tasks := Function.update s.tasks task_id none
              task_count := s.task_count - 1 })

/-- The selection loop of `Scheduler::schedule_next_task`: fold over the
slots from index `i` for `k` steps, carrying
`(highest_priority, selected_task)`; a slot beats the accumulator exactly
when it holds a task in state `Ready` whose priority is strictly greater
than the running highest. -/
def scanTasks (tasks : Nat → Option Task) : Nat → Nat → Nat × Option Nat → Nat × Option Nat
  | _, 0, acc => acc
  | i, k + 1, acc =>
      let acc' :=
        match tasks i with
        | some t =>
            if t.control.state = TaskState.Ready ∧ acc.1 < t.control.priority then
              (t.control.priority, some i)
            else acc
        | none => acc
      scanTasks tasks (i + 1) k acc'

/-- `Scheduler::schedule_next_task`: the scan starts from
`highest_priority = TaskPriority::Idle` (numeric value 0) and
`selected_task = idle_task_index`. -/
def Scheduler.schedule_next_task (s : Scheduler) : Option Nat :=
  (scanTasks s.tasks 0 maxTasks (0, s.idle_task_index)).2

/-- Overwrite the state of the task in slot `i`.  The source performs
`self.tasks[i].as_mut().unwrap().control.state = st`, which requires the
slot to be occupied; on an empty slot this model leaves the table
unchanged, and every use below has the slot occupied. -/
def setTaskState (tasks : Nat → Option Task) (i : Nat) (st : TaskState) :
    Nat → Option Task :=
  Function.update tasks i
    ((tasks i).map (fun t => { t with control := { t.control with state := st } }))

/-- `Scheduler::switch_task`: `save_context` and
`update_task_statistics` touch only the saved hardware context and the
diagnostic counters (neither is read by any scheduling decision), so the
modelled effect is recording the new `current_task` and marking the
target slot `Running`.  No state change is applied to the outgoing
task. -/
def Scheduler.switch_task (s : Scheduler) (next : Nat) : Scheduler :=
  { s with current_task := some next
           tasks := setTaskState s.tasks next TaskState.Running }

/-- One iteration of the dispatch loop in `Scheduler::run`: if
`schedule_next_task` yields an index, switch to it. -/
def Scheduler.run_step (s : Scheduler) : Scheduler :=
  match s.schedule_next_task with
  | some next => s.switch_task next
  | none => s

/-- `Scheduler::init`: fail when the `SCHEDULER_RUNNING` static is
already set; otherwise (after the Timer0 configuration, hardware-only)
add the idle task at `TaskPriority::Idle`, record its slot as
`idle_task_index`, and set the running flag. -/
def Scheduler.init (s : Scheduler) : Except SchedulerError Unit × Scheduler :=
  if s.scheduler_running then (Except.error SchedulerError.AlreadyRunning, s)
  else
    match s.add_task idleEntryAddr 0 0 with
    | (Except.ok i, s') =>
        (Except.ok (), { s' with idle_task_index := some i, scheduler_running := true })
    | (Except.error _, s') => (Except.error SchedulerError.TaskLimitReached, s')

/-- `Scheduler::wake_event_tasks`: sets every `Blocked` task in the table
to `Ready` — the `event_type` argument is ignored by the source. -/
def Scheduler.wake_event_tasks (s : Scheduler) (_event_type : EventType) : Scheduler :=
  { s with tasks := fun i =>
      if i < maxTasks then
        (s.tasks i).map (fun t =>
          if t.control.state = TaskState.Blocked then
            { t with control := { t.control with state := TaskState.Ready } }
          else t)
      else s.tasks i }

/-- `Scheduler::post_event`: build the event with the current tick as
timestamp, push it, fail with `EventQueueFull` when the push reports a
full buffer, otherwise wake the blocked tasks. -/
def Scheduler.post_event (s : Scheduler) (event_type : EventType) (data : Nat) :
    Except SchedulerError Unit × Scheduler :=
  let event : Event := { event_type := event_type, data := data, timestamp := s.ticks % u32Mod }
  let p := s.event_queue.push event
  let s1 := { s with event_queue := p.1 }
  if p.2 = false then (Except.error SchedulerError.EventQueueFull, s1)
  else (Except.ok (), s1.wake_event_tasks event_type)

/-- The yield step of `Scheduler::wait_for_event` when no matching event
was found and the deadline is not reached: mark the current task (if
any) `Blocked`. -/
def blockCurrent (s : Scheduler) : Scheduler :=
  match s.current_task with
  | some current => { s with tasks := setTaskState s.tasks current TaskState.Blocked }
  | none => s

/-- The `loop` of `Scheduler::wait_for_event`, with the deadline already
computed and a fuel bound on the number of iterations (the source loops
unboundedly; `none` means the fuel ran out with the loop still running).
Each iteration pops the queue head; the popped event is returned when its
type matches, and is otherwise dropped; then the tick counter is checked
against the deadline; then the current task is blocked and one dispatch
step runs. -/
def waitLoop (event_type : EventType) (deadline : Nat) :
    Nat → Scheduler → Option (Except SchedulerError Event × Scheduler)
  | 0, _ => none
  | fuel + 1, s =>
      let p := s.event_queue.pop
      let s1 := { s with event_queue := p.2 }
      match p.1.bind (fun event =>
          if event.event_type = event_type then some event else none) with
      | some event => some (Except.ok event, s1)
      | none =>
          if s1.ticks ≥ deadline then some (Except.error SchedulerError.Timeout, s1)
          else waitLoop event_type deadline fuel (blockCurrent s1).run_step

/-- `Scheduler::wait_for_event`: the deadline is
`SYSTEM_TICKS + timeout_ms` in wrapped `u32` arithmetic, computed once
before the loop. -/
def Scheduler.wait_for_event (s : Scheduler) (event_type : EventType) (timeout_ms : Nat)
    (fuel : Nat) : Option (Except SchedulerError Event × Scheduler) :=
  waitLoop event_type ((s.ticks + timeout_ms) % u32Mod) fuel s

/-- The pool scan of `Scheduler::create_semaphore`: first index (from
`i`, for `k` steps) whose semaphore has count 0. -/
def findZeroCountFrom (sems : Nat → Semaphore) (i k : Nat) : Option Nat :=
  firstIdxFrom (fun j => (sems j).count == 0) i k

/-- `Scheduler::create_semaphore`: hand out the first pool slot whose
count is 0, reinitialized to the requested count; fail with
`NoSemaphoresAvailable` when every slot has a nonzero count. -/
def Scheduler.create_semaphore (s : Scheduler) (initial : Nat) :
    Except SchedulerError Nat × Scheduler :=
  match findZeroCountFrom s.semaphores 0 8 with
  | some i =>
      (Except.ok i,
       { s with semaphores := Function.update s.semaphores i (Semaphore.new initial) })
  | none => (Except.error SchedulerError.NoSemaphoresAvailable, s)

/-- `Scheduler::semaphore_acquire`: bounds-check the handle, try the
non-blocking acquire; on failure mark the current task `Blocked` and
report `SemaphoreLocked`. -/
def Scheduler.semaphore_acquire (s : Scheduler) (sem_id : Nat) :
    Except SchedulerError Unit × Scheduler :=
  if sem_id ≥ 8 then (Except.error SchedulerError.InvalidSemaphore, s)
  else
    let p := (s.semaphores sem_id).acquire
    let s1 := { s with semaphores := Function.update s.semaphores sem_id p.1 }
    if p.2 = false then
      (Except.error SchedulerError.SemaphoreLocked, blockCurrent s1)
    else (Except.ok (), s1)

/-- `Scheduler::semaphore_release`: bounds-check the handle and perform
the unconditional increment.  Nothing else happens: no task state is
touched. -/
def Scheduler.semaphore_release (s : Scheduler) (sem_id : Nat) :
    Except SchedulerError Unit × Scheduler :=
  if sem_id ≥ 8 then (Except.error SchedulerError.InvalidSemaphore, s)
  else
    (Except.ok (),
     { s with semaphores := Function.update s.semaphores sem_id (s.semaphores sem_id).release })

/-- State of the task in slot `i`, when the slot is occupied. -/
def taskStateAt (s : Scheduler) (i : Nat) : Option TaskState :=
  (s.tasks i).map (fun t => t.control.state)

/-- Priority of the task in slot `i` when that slot holds a `Ready`
task, and `none` otherwise. -/
def readyPrioAt (tasks : Nat → Option Task) (i : Nat) : Option Nat :=
  match tasks i with
  | some t => if t.control.state = TaskState.Ready then some t.control.priority else none
  | none => none

/-- Number of occupied slots in the task table. -/
def countOccupied (s : Scheduler) : Nat :=
  (List.range maxTasks).countP (fun i => (s.tasks i).isSome)

/-- Number of slots holding a task in state `Running`. -/
def countRunning (s : Scheduler) : Nat :=
  (List.range maxTasks).countP (fun i => taskStateAt s i = some TaskState.Running)

/-- `k` consecutive calls to `Semaphore::acquire`: final semaphore plus
whether every call succeeded. -/
def acquireRep : Nat → Semaphore → Semaphore × Bool
  | 0, s => (s, true)
  | k + 1, s =>
      let p := s.acquire
      let r := acquireRep k p.1
      (r.1, p.2 && r.2)

/-- `k` consecutive calls to `EventQueue::push` (with distinct `data`
payloads): final queue plus whether every call succeeded. -/
def pushRep : Nat → EventQueue → EventQueue × Bool
  | 0, q => (q, true)
  | k + 1, q =>
      let p := q.push { event_type := EventType.Timer, data := k, timestamp := 0 }
      let r := pushRep k p.1
      (r.1, p.2 && r.2)

/-- `k` consecutive successful-or-not `add_task` calls (entry 3,
priority `Normal` = 2), keeping the final state. -/
def addRep : Nat → Scheduler → Scheduler
  | 0, s => s
  | k + 1, s => addRep k (s.add_task 3 2 0).2

/-- A freshly constructed scheduler after a successful `init`: idle task
in slot 0. -/
def sInit : Scheduler := (Scheduler.new.init).2

/-- Reachable state for the scheduling claim: after `init`, a second
task of priority `TaskPriority::Idle` (numeric 0) is added into slot 1,
and one dispatch step runs (selecting the idle task, which becomes
`Running`).  Slot 1 is then the only `Ready` task in the table. -/
def sLowPrio : Scheduler := ((sInit.add_task 5 0 0).2).run_step

/-- Reachable state with one `Ready` task of positive priority: after
`init`, a task of priority `High` (numeric 3) is added into slot 1. -/
def sHigh : Scheduler := (sInit.add_task 7 3 0).2

/-- Reachable state for the single-`Running` invariant: after `init`,
task A (priority `High` = 3, slot 1) and task B (priority `Normal` = 2,
slot 2) are added, then two dispatch steps run: the first switches to A,
the second to B. -/
def sTwoSteps : Scheduler := ((sHigh.add_task 9 2 0).2).run_step.run_step

/-- A queue filled by 31 consecutive pushes starting from empty. -/
def q31 : EventQueue × Bool := pushRep 31 EventQueue.new

/-- Reachable state for the event-consumption claim: a `Gpio` event
posted, then a `Timer` event, starting from a fresh scheduler. -/
def sTwoEvents : Scheduler :=
  ((Scheduler.new.post_event EventType.Gpio 1).2.post_event EventType.Timer 2).2

/-- Reachable state for the semaphore-release claim: after `init`, a
task of priority `Normal` runs in slot 1; semaphore 0 is created with
count 1, acquired once (count 0), and acquired again — the second
acquire fails and blocks the running task. -/
def sSemBlocked : Scheduler :=
  ((((sInit.add_task 11 2 0).2).run_step.create_semaphore 1).2.semaphore_acquire 0).2.semaphore_acquire 0 |>.2

/-- Reachable state for the zero-timeout claim: the scheduler of
`sSemBlocked` history up to the running task, with one `Gpio` event
posted (no `Timer` event queued). -/
def sOneGpio : Scheduler := (((sInit.add_task 11 2 0).2).run_step.post_event EventType.Gpio 5).2

/-- Reachable full task table: `init` followed by fifteen successful
`add_task` calls. -/
def sFull : Scheduler := addRep 15 sInit

/-! ### Helper lemmas -/

/-- The register-zeroing pushes leave an all-zero-below stack unchanged
and move the stack pointer down by the number of pushes. -/
lemma pushZeros_of_zero (n : Nat) : ∀ (st : Nat → Nat) (sp : Nat),
    (∀ j, j < sp → st j = 0) → n ≤ sp → pushZeros n st sp = (st, sp - n) := by
  induction n with
  | zero => intro st sp _ _; simp [pushZeros]
  | succ n ih =>
      intro st sp h hle
      have h1 : st (sp - 1) = 0 := h _ (by omega)
      have hupd : Function.update st (sp - 1) 0 = st := by
        rw [← h1]; exact Function.update_eq_self _ _
      calc pushZeros (n + 1) st sp
          = pushZeros n (Function.update st (sp - 1) 0) (sp - 1) := rfl
        _ = pushZeros n st (sp - 1) := by rw [hupd]
        _ = (st, sp - 1 - n) := ih st (sp - 1) (fun j hj => h j (by omega)) (by omega)
        _ = (st, sp - (n + 1)) := by rw [Nat.sub_sub, Nat.add_comm]

/-- The stack contents produced by `Task::init_stack`: entry low byte at
offset 511, entry high byte at 510, the status byte `0x80` at 509, zero
elsewhere. -/
def stInit (entry : Nat) : Nat → Nat :=
  Function.update (Function.update (Function.update (fun _ => 0) 511 (entry % 65536 % 256))
    510 (entry % 65536 / 256 % 256)) 509 128

lemma initStack_eq (entry : Nat) : initStack entry = (stInit entry, 477) := by
  have h : ∀ j, j < 509 → stInit entry j = 0 := by
    intro j hj
    unfold stInit
    rw [Function.update_apply, if_neg (by omega), Function.update_apply, if_neg (by omega),
        Function.update_apply, if_neg (by omega)]
  show pushZeros 32 (stInit entry) 509 = (stInit entry, 477)
  rw [pushZeros_of_zero 32 (stInit entry) 509 h (by norm_num)]

/-- `Task::new` in closed form. -/
lemma task_new_eq (priority : Nat) (name : String) (entry : Nat) (nextId : Nat) :
    Task.new priority name entry nextId =
      { control :=
          { id := nextId % 256
            stack_ptr := 477
            stack_size := stackSize
            state := TaskState.Ready
            priority := priority
            name := name
            waiting_event := none
            last_wake_time := 0
            deadline_ms := 0 }
        stack := stInit entry } := by
  simp only [Task.new]
  rw [initStack_eq]

/-- `k` non-blocking acquires all succeed on a semaphore holding at
least `k` permits, and remove exactly `k` permits. -/
lemma acquireRep_of_le (k : Nat) : ∀ s : Semaphore, k ≤ s.count →
    acquireRep k s = ({ s with count := s.count - k }, true) := by
  induction k with
  | zero => intro s _; rfl
  | succ k ih =>
      intro s h
      have hpos : 0 < s.count := by omega
      have ha : s.acquire = ({ s with count := s.count - 1 }, true) := by
        unfold Semaphore.acquire
        rw [if_pos hpos]
      have hk : k ≤ ({ s with count := s.count - 1 } : Semaphore).count := by
        show k ≤ s.count - 1; omega
      have hsub : s.count - 1 - k = s.count - (k + 1) := by omega
      simp only [acquireRep, ha, ih _ hk]
      rw [show ({ s with count := s.count - 1 } : Semaphore).count - k = s.count - 1 - k from rfl,
          hsub]
      simp

/-- A linear scan finding nothing: every index in range fails the test. -/
lemma firstIdxFrom_none (p : Nat → Bool) (k : Nat) : ∀ i,
    (∀ j, i ≤ j → j < i + k → p j = false) → firstIdxFrom p i k = none := by
  induction k with
  | zero => intro i _; rfl
  | succ k ih =>
      intro i h
      have hpi : p i = false := h i (Nat.le_refl i) (by omega)
      simp only [firstIdxFrom, hpi, Bool.false_eq_true, if_false]
      exact ih (i + 1) (fun j h1 h2 => h j (by omega) (by omega))

/-- A linear scan stops at the first index in range passing the test. -/
lemma firstIdxFrom_some (p : Nat → Bool) (k : Nat) : ∀ i id,
    i ≤ id → id < i + k → p id = true → (∀ j, i ≤ j → j < id → p j = false) →
    firstIdxFrom p i k = some id := by
  induction k with
  | zero => intro i id h1 h2 _ _; omega
  | succ k ih =>
      intro i id h1 h2 hp hbefore
      by_cases hi : i = id
      · subst hi
        simp only [firstIdxFrom, hp, if_true]
      · have hpi : p i = false := hbefore i (Nat.le_refl i) (by omega)
        simp only [firstIdxFrom, hpi, Bool.false_eq_true, if_false]
        exact ih (i + 1) id (by omega) (by omega) hp (fun j ha hb => hbefore j (by omega) hb)

/-! ### C9 — initial task context -/

/-- C9: for every priority, name and entry, `Task::new` yields a task in
state `Ready` whose stack holds, in push order from the top, the entry
address (low byte at offset 511, high byte at 510), the status byte
`0x80` with the interrupt-enable bit set at 509, and 32 zeroed registers
at offsets 508 down to 477, with `stack_ptr` at 477, the last byte
pushed. -/
theorem task_new_initial_context (priority : Nat) (name : String) (entry : Nat) (nextId : Nat) :
    (Task.new priority name entry nextId).control.state = TaskState.Ready ∧
    (Task.new priority name entry nextId).control.stack_ptr = 477 ∧
    (Task.new priority name entry nextId).stack 511 = entry % 65536 % 256 ∧
    (Task.new priority name entry nextId).stack 510 = entry % 65536 / 256 % 256 ∧
    (Task.new priority name entry nextId).stack 509 = 128 ∧
    (∀ k, 477 ≤ k → k ≤ 508 → (Task.new priority name entry nextId).stack k = 0) := by
  rw [task_new_eq]
  refine ⟨rfl, rfl, ?_, ?_, ?_, ?_⟩
  · show stInit entry 511 = entry % 65536 % 256
    unfold stInit
    rw [Function.update_apply, if_neg (by omega), Function.update_apply, if_neg (by omega),
        Function.update_apply, if_pos rfl]
  · show stInit entry 510 = entry % 65536 / 256 % 256
    unfold stInit
    rw [Function.update_apply, if_neg (by omega), Function.update_apply, if_pos rfl]
  · show stInit entry 509 = 128
    unfold stInit
    rw [Function.update_apply, if_pos rfl]
  · intro k hk1 hk2
    show stInit entry k = 0
    unfold stInit
    rw [Function.update_apply, if_neg (by omega), Function.update_apply, if_neg (by omega),
        Function.update_apply, if_neg (by omega)]

/-- Witness for C9 at priority 2, name `task`, entry `0x1234`, id 0,
register offset 500. -/
theorem task_new_initial_context_witness :
    (Task.new 2 "task" 4660 0).control.state = TaskState.Ready ∧
    (Task.new 2 "task" 4660 0).stack 500 = 0 :=
  ⟨(task_new_initial_context 2 "task" 4660 0).1,
   (task_new_initial_context 2 "task" 4660 0).2.2.2.2.2 500 (by norm_num) (by norm_num)⟩

/-! ### C5 — semaphore permit counting -/

/-- C5: a semaphore created with count `N` (a `u8`, so `N ≤ 255`) grants
exactly `N` consecutive successful acquires; the next acquire fails;
after one release exactly one more acquire succeeds (and the one after
that fails again). -/
theorem semaphore_exact_count (n : Nat) (h : n ≤ 255) :
    (acquireRep n (Semaphore.new n)).2 = true ∧
    ((acquireRep n (Semaphore.new n)).1.acquire).2 = false ∧
    (((acquireRep n (Semaphore.new n)).1.release).acquire).2 = true ∧
    ((((acquireRep n (Semaphore.new n)).1.release).acquire).1.acquire).2 = false := by
  have hc : (Semaphore.new n).count = n := by
    show n % 256 = n
    omega
  have hrep := acquireRep_of_le n (Semaphore.new n) (by rw [hc])
  have hx : (Semaphore.new n).count - n = 0 := by rw [hc]; omega
  rw [hrep]
  simp only [Semaphore.acquire, Semaphore.release, hx]
  norm_num

/-- Witness for C5 at `N = 2`. -/
theorem semaphore_exact_count_witness :
    (2 : Nat) ≤ 255 ∧ ((acquireRep 2 (Semaphore.new 2)).1.acquire).2 = false :=
  ⟨by norm_num, (semaphore_exact_count 2 (by norm_num)).2.1⟩

/-! ### C10 — semaphore pool allocation -/

/-- C10: `create_semaphore` hands out the lowest pool index whose
current count is 0 (reinitializing that slot to the requested count and
leaving every other slot untouched), and fails with
`NoSemaphoresAvailable` exactly when all 8 counts are nonzero — so a
semaphore whose count has been driven to 0 by acquires is eligible to be
handed out again. -/
theorem create_semaphore_reuses_zero_count (s : Scheduler) (initial : Nat) :
    (∀ i, i < 8 → (s.semaphores i).count = 0 → (∀ j, j < i → (s.semaphores j).count ≠ 0) →
      (s.create_semaphore initial).1 = Except.ok i ∧
      ((s.create_semaphore initial).2).semaphores i = Semaphore.new initial ∧
      (∀ j, j ≠ i → ((s.create_semaphore initial).2).semaphores j = s.semaphores j)) ∧
    ((∀ i, i < 8 → (s.semaphores i).count ≠ 0) →
      s.create_semaphore initial = (Except.error SchedulerError.NoSemaphoresAvailable, s)) := by
  constructor
  · intro i hi hz hbefore
    have hfind : findZeroCountFrom s.semaphores 0 8 = some i := by
      apply firstIdxFrom_some _ 8 0 i (Nat.zero_le i) (by omega)
      · rw [hz]; rfl
      · intro j _ hj
        rw [beq_eq_false_iff_ne]
        exact hbefore j hj
    unfold Scheduler.create_semaphore
    rw [hfind]
    refine ⟨rfl, ?_, ?_⟩
    · show Function.update s.semaphores i (Semaphore.new initial) i = Semaphore.new initial
      exact Function.update_same i _ _
    · intro j hj
      show Function.update s.semaphores i (Semaphore.new initial) j = s.semaphores j
      exact Function.update_noteq hj _ _
  · intro hall
    have hfind : findZeroCountFrom s.semaphores 0 8 = none := by
      apply firstIdxFrom_none
      intro j h0 hj
      rw [beq_eq_false_iff_ne]
      exact hall j (by omega)
    unfold Scheduler.create_semaphore
    rw [hfind]

/-- Witness for C10: a fresh scheduler (all counts 0) hands out slot 0. -/
theorem create_semaphore_reuses_zero_count_witness :
    (Scheduler.new.create_semaphore 3).1 = Except.ok 0 ∧
    ((Scheduler.new.create_semaphore 3).2).semaphores 0 = Semaphore.new 3 :=
  ⟨((create_semaphore_reuses_zero_count Scheduler.new 3).1 0 (by norm_num) rfl
      (fun j hj => absurd hj (Nat.not_lt_zero j))).1,
   ((create_semaphore_reuses_zero_count Scheduler.new 3).1 0 (by norm_num) rfl
      (fun j hj => absurd hj (Nat.not_lt_zero j))).2.1⟩

/-! ### C6 — task table capacity -/

/-- With the task count consistent with the table, a full count means
every slot below `MAX_TASKS` is occupied. -/
lemma all_slots_occupied (s : Scheduler) (h : s.task_count = countOccupied s)
    (hfull : s.task_count = maxTasks) : ∀ i, i < maxTasks → (s.tasks i).isSome = true := by
  have hlen : (List.range maxTasks).countP (fun i => (s.tasks i).isSome) =
      (List.range maxTasks).length := by
    have hc : countOccupied s = maxTasks := by rw [← h, hfull]
    rw [show (List.range maxTasks).countP (fun i => (s.tasks i).isSome) = countOccupied s
          from rfl, hc, List.length_range]
  intro i hi
  exact List.countP_eq_length.1 hlen i (List.mem_range.2 hi)

/-- C6: once `task_count` has reached `MAX_TASKS` (with the count
consistent with the table), `add_task` fails with `TaskLimitReached`
leaving the state unchanged; after one `remove_task` of an existing
slot, the next `add_task` succeeds and installs the new task into the
freed slot — the first (and only) free slot. -/
theorem add_task_limit (s : Scheduler) (h : s.task_count = countOccupied s)
    (hfull : s.task_count = maxTasks) :
    (∀ entry priority period,
       s.add_task entry priority period = (Except.error SchedulerError.TaskLimitReached, s)) ∧
    (∀ task_id, task_id < maxTasks →
       (s.remove_task task_id).1 = Except.ok () ∧
       (∀ entry priority period,
          (((s.remove_task task_id).2).add_task entry priority period).1 = Except.ok task_id ∧
          ((((s.remove_task task_id).2).add_task entry priority period).2).tasks task_id =
            some (Task.new priority "task" entry ((s.remove_task task_id).2).next_task_id))) := by
  constructor
  · intro entry priority period
    unfold Scheduler.add_task
    rw [if_pos (by omega)]
  · intro task_id htid
    have hocc := all_slots_occupied s h hfull task_id htid
    have hnotnone : ¬(task_id ≥ maxTasks ∨ (s.tasks task_id).isNone = true) := by
      rintro (hge | hn)
      · omega
      · have hfalse : (s.tasks task_id).isNone = false := by
          cases hx : s.tasks task_id with
          | none => rw [hx] at hocc; exact absurd hocc (by simp)
          | some t => rfl
        rw [hfalse] at hn
        exact Bool.false_ne_true hn
    have hrm : s.remove_task task_id =
        (Except.ok (),
         { s with tasks := Function.update s.tasks task_id none
                  task_count := s.task_count - 1 }) := by
      unfold Scheduler.remove_task
      rw [if_neg hnotnone]
    rw [hrm]
    refine ⟨rfl, ?_⟩
    intro entry priority period
    have hfind : findFreeFrom (Function.update s.tasks task_id none) 0 maxTasks =
        some task_id := by
      apply firstIdxFrom_some _ maxTasks 0 task_id (Nat.zero_le task_id) (by omega)
      · rw [Function.update_same]
        rfl
      · intro j _ hj
        rw [Function.update_noteq (by omega)]
        have := all_slots_occupied s h hfull j (by omega)
        cases hx : s.tasks j with
        | none => rw [hx] at this; exact absurd this (by simp)
        | some t => rfl
    unfold Scheduler.add_task
    rw [if_neg (by show ¬(s.task_count - 1 ≥ maxTasks); omega)]
    rw [hfind]
    exact ⟨rfl, Function.update_same task_id _ _⟩

/-- Witness for C6: the reachable full table `sFull`, freeing slot 4. -/
theorem add_task_limit_witness :
    sFull.add_task 1 2 0 = (Except.error SchedulerError.TaskLimitReached, sFull) ∧
    (((sFull.remove_task 4).2).add_task 1 2 0).1 = Except.ok 4 :=
  ⟨(add_task_limit sFull (by decide) (by decide)).1 1 2 0,
   (((add_task_limit sFull (by decide) (by decide)).2 4 (by decide)).2 1 2 0).1⟩

/-! ### C8 — zero timeout never blocks -/

/-- C8: with no event of the requested type anywhere in the buffer,
`wait_for_event` with `timeout_ms = 0` returns `Timeout` on the first
loop iteration — before the block-and-switch step — so the task table
(and hence the caller state, which is never set to `Blocked`) is
untouched. -/
theorem wait_zero_timeout (s : Scheduler) (event_type : EventType) (fuel : Nat)
    (hticks : s.ticks < u32Mod)
    (hwfq : s.event_queue.wfq)
    (hno : ∀ i, i < qcap →
      (s.event_queue.events i).map (fun e => e.event_type) ≠ some event_type) :
    s.wait_for_event event_type 0 (fuel + 1) =
      some (Except.error SchedulerError.Timeout,
            { s with event_queue := (s.event_queue.pop).2 }) ∧
    ({ s with event_queue := (s.event_queue.pop).2 }).tasks = s.tasks ∧
    ({ s with event_queue := (s.event_queue.pop).2 }).current_task = s.current_task := by
  refine ⟨?_, rfl, rfl⟩
  unfold Scheduler.wait_for_event
  have hdl : (s.ticks + 0) % u32Mod = s.ticks := by
    rw [Nat.add_zero]
    exact Nat.mod_eq_of_lt hticks
  rw [hdl]
  have hbind : ((s.event_queue.pop).1.bind
      (fun event => if event.event_type = event_type then some event else none)) = none := by
    cases hp : (s.event_queue.pop).1 with
    | none => rfl
    | some e =>
        have he : e.event_type ≠ event_type := by
          unfold EventQueue.pop at hp
          by_cases hht : s.event_queue.head ≠ s.event_queue.tail
          · rw [if_pos hht] at hp
            have hev : s.event_queue.events s.event_queue.head = some e := hp
            have := hno s.event_queue.head hwfq.1
            rw [hev] at this
            intro hcon
            exact this (by simp [hcon])
          · rw [if_neg hht] at hp
            exact absurd hp (by simp)
        show (if e.event_type = event_type then some e else none) = none
        rw [if_neg he]
  simp only [waitLoop, hbind]
  rw [if_pos (Nat.le_refl s.ticks)]

/-- Witness for C8: the reachable state `sOneGpio` (a `Gpio` event
queued, a `Running` task in slot 1, no `Timer` event anywhere). -/
theorem wait_zero_timeout_witness :
    sOneGpio.wait_for_event EventType.Timer 0 (0 + 1) =
      some (Except.error SchedulerError.Timeout,
            { sOneGpio with event_queue := (sOneGpio.event_queue.pop).2 }) ∧
    ({ sOneGpio with event_queue := (sOneGpio.event_queue.pop).2 }).tasks = sOneGpio.tasks ∧
    ({ sOneGpio with event_queue := (sOneGpio.event_queue.pop).2 }).current_task =
      sOneGpio.current_task :=
  wait_zero_timeout sOneGpio EventType.Timer 0 (by decide) ⟨by decide, by decide⟩ (by decide)

/-! ### C3 — event queue capacity -/

/-- A push on a queue holding fewer than `capacity - 1` entries succeeds
and appends the event at the FIFO tail, preserving every existing entry
and the index bounds. -/
lemma push_toList (q : EventQueue) (event : Event) (hh : q.head < qcap) (ht : q.tail < qcap)
    (hsize : q.size < qcap - 1) :
    (q.push event).2 = true ∧
    ((q.push event).1).toList = q.toList ++ [some event] ∧
    ((q.push event).1).wfq := by
  have hsz : (qcap + q.tail - q.head) % qcap < qcap - 1 := hsize
  have hne : (q.tail + 1) % qcap ≠ q.head := by
    unfold qcap at *; omega
  have hqp : q.push event =
      ({ q with events := Function.update q.events q.tail (some event),
                tail := (q.tail + 1) % qcap }, true) := by
    unfold EventQueue.push
    rw [if_pos hne]
  rw [hqp]
  refine ⟨rfl, ?_, hh, Nat.mod_lt _ (by unfold qcap; omega)⟩
  show (List.range ((qcap + (q.tail + 1) % qcap - q.head) % qcap)).map
      (fun k => Function.update q.events q.tail (some event) ((q.head + k) % qcap)) =
    (List.range ((qcap + q.tail - q.head) % qcap)).map
      (fun k => q.events ((q.head + k) % qcap)) ++ [some event]
  have hs1 : (qcap + (q.tail + 1) % qcap - q.head) % qcap =
      (qcap + q.tail - q.head) % qcap + 1 := by
    unfold qcap at *; omega
  rw [hs1, List.range_succ, List.map_append]
  congr 1
  · apply List.map_congr_left
    intro k hk
    have hk' : k < (qcap + q.tail - q.head) % qcap := List.mem_range.1 hk
    apply Function.update_noteq
    unfold qcap at *; omega
  · simp only [List.map_cons, List.map_nil]
    have heq : (q.head + (qcap + q.tail - q.head) % qcap) % qcap = q.tail := by
      unfold qcap at *; omega
    rw [heq, Function.update_same]

/-- A push on a queue already holding `capacity - 1` entries fails and
leaves the queue untouched. -/
lemma push_full (q : EventQueue) (event : Event) (hh : q.head < qcap) (ht : q.tail < qcap)
    (hsize : q.size = qcap - 1) : q.push event = (q, false) := by
  have heq : (q.tail + 1) % qcap = q.head := by
    unfold EventQueue.size qcap at *; omega
  unfold EventQueue.push
  rw [if_neg (not_not_intro heq)]

/-- C3 (amended): the ring buffer holds at most 31 unconsumed events.
`push` succeeds and appends in FIFO order whenever fewer than 31 events
are unconsumed; it fails — and `post_event` reports `EventQueueFull`
with the scheduler unchanged — exactly when 31 events are unconsumed,
leaving all existing entries untouched and retrievable in order. -/
theorem event_queue_capacity (s : Scheduler) (event : Event) (event_type : EventType)
    (data : Nat) (hwfq : s.event_queue.wfq) :
    (s.event_queue.size < qcap - 1 →
       (s.event_queue.push event).2 = true ∧
       ((s.event_queue.push event).1).toList = s.event_queue.toList ++ [some event] ∧
       ((s.event_queue.push event).1).wfq) ∧
    (s.event_queue.size = qcap - 1 →
       s.event_queue.push event = (s.event_queue, false) ∧
       s.post_event event_type data = (Except.error SchedulerError.EventQueueFull, s)) := by
  obtain ⟨hh, ht⟩ := hwfq
  constructor
  · intro hsize
    exact push_toList s.event_queue event hh ht hsize
  · intro hsize
    refine ⟨push_full s.event_queue event hh ht hsize, ?_⟩
    simp only [Scheduler.post_event]
    rw [push_full s.event_queue _ hh ht hsize]
    rfl

set_option maxRecDepth 8192 in
/-- Witness for C3: a reachable queue built by 31 pushes from empty,
installed in a fresh scheduler. -/
theorem event_queue_capacity_witness :
    (pushRep 31 EventQueue.new).1.size = qcap - 1 ∧
    ({ Scheduler.new with event_queue := (pushRep 31 EventQueue.new).1 } : Scheduler).post_event
        EventType.Uart 7 =
      (Except.error SchedulerError.EventQueueFull,
       { Scheduler.new with event_queue := (pushRep 31 EventQueue.new).1 }) :=
  ⟨by decide,
   ((event_queue_capacity { Scheduler.new with event_queue := (pushRep 31 EventQueue.new).1 }
      { event_type := EventType.Uart, data := 7, timestamp := 0 } EventType.Uart 7
      ⟨by decide, by decide⟩).2 (by decide)).2⟩

set_option maxRecDepth 8192 in
/-- C3 counterexample to the stated 32-event capacity: 31 consecutive
pushes from empty all succeed, the queue then holds 31 unconsumed events
— fewer than 32 — yet the next push fails. -/
theorem event_queue_full_at_31 :
    (pushRep 31 EventQueue.new).2 = true ∧
    (pushRep 31 EventQueue.new).1.size = 31 ∧
    ((pushRep 31 EventQueue.new).1.push
        { event_type := EventType.Timer, data := 99, timestamp := 0 }).2 = false := by
  refine ⟨by decide, by decide, by decide⟩

/-! ### C1 — scheduler selection -/

/-- Unfolding of one step of the selection scan. -/
lemma scanTasks_succ (tasks : Nat → Option Task) (i k : Nat) (p : Nat) (sel : Option Nat) :
    scanTasks tasks i (k + 1) (p, sel) =
      scanTasks tasks (i + 1) k
        (match tasks i with
         | some t =>
             if t.control.state = TaskState.Ready ∧ p < t.control.priority then
               (t.control.priority, some i)
             else (p, sel)
         | none => (p, sel)) := rfl

/-- A slot holding a ready priority is an occupied `Ready` slot with
that priority. -/
lemma readyPrioAt_some (tasks : Nat → Option Task) (i q : Nat)
    (h : readyPrioAt tasks i = some q) :
    ∃ t, tasks i = some t ∧ t.control.state = TaskState.Ready ∧ t.control.priority = q := by
  unfold readyPrioAt at h
  cases hti : tasks i with
  | none => rw [hti] at h; exact absurd h (by simp)
  | some t =>
      rw [hti] at h
      have h' : (if t.control.state = TaskState.Ready then some t.control.priority else none)
          = some q := h
      by_cases hr : t.control.state = TaskState.Ready
      · rw [if_pos hr] at h'
        refine ⟨t, rfl, hr, ?_⟩
        injection h'
      · rw [if_neg hr] at h'
        exact absurd h' (by simp)

/-- The selection scan leaves its accumulator unchanged when no slot in
range holds a ready task of priority above the carried one. -/
lemma scanTasks_none (tasks : Nat → Option Task) (k : Nat) : ∀ i p sel,
    (∀ j q, i ≤ j → j < i + k → readyPrioAt tasks j = some q → q ≤ p) →
    scanTasks tasks i k (p, sel) = (p, sel) := by
  induction k with
  | zero => intro i p sel _; rfl
  | succ k ih =>
      intro i p sel h
      rw [scanTasks_succ]
      have hstep : (match tasks i with
          | some t =>
              if t.control.state = TaskState.Ready ∧ p < t.control.priority then
                (t.control.priority, some i)
              else (p, sel)
          | none => (p, sel)) = ((p, sel) : Nat × Option Nat) := by
        cases hti : tasks i with
        | none => rfl
        | some t =>
            show (if t.control.state = TaskState.Ready ∧ p < t.control.priority then
                (t.control.priority, some i) else (p, sel)) = ((p, sel) : Nat × Option Nat)
            by_cases hr : t.control.state = TaskState.Ready
            · have hq : t.control.priority ≤ p := by
                apply h i t.control.priority (Nat.le_refl i) (by omega)
                unfold readyPrioAt
                rw [hti]
                show (if t.control.state = TaskState.Ready then some t.control.priority
                  else none) = some t.control.priority
                rw [if_pos hr]
              exact if_neg (fun hc => absurd hc.2 (Nat.not_lt.2 hq))
            · exact if_neg (fun hc => hr hc.1)
      rw [hstep]
      exact ih (i + 1) p sel (fun j q h1 h2 hq => h j q (by omega) (by omega) hq)

/-- When some slot in range holds a ready task whose priority beats the
carried one, the selection scan returns the first index attaining the
maximum ready priority in range. -/
lemma scanTasks_found (tasks : Nat → Option Task) (k : Nat) : ∀ i p sel j q,
    i ≤ j → j < i + k → readyPrioAt tasks j = some q → p < q →
    ∃ b qb, scanTasks tasks i k (p, sel) = (qb, some b) ∧ i ≤ b ∧ b < i + k ∧
      readyPrioAt tasks b = some qb ∧ p < qb ∧
      (∀ j' q', i ≤ j' → j' < i + k → readyPrioAt tasks j' = some q' → q' ≤ qb) ∧
      (∀ j' q', i ≤ j' → j' < b → readyPrioAt tasks j' = some q' → q' < qb) := by
  induction k with
  | zero => intro i p sel j q h1 h2 _ _; omega
  | succ k ih =>
      intro i p sel j q hij hjk hready hpq
      by_cases hbeat : ∃ t, tasks i = some t ∧ t.control.state = TaskState.Ready ∧
          p < t.control.priority
      · obtain ⟨t, hti, hr, hp⟩ := hbeat
        have hready_i : readyPrioAt tasks i = some t.control.priority := by
          unfold readyPrioAt
          rw [hti]
          show (if t.control.state = TaskState.Ready then some t.control.priority
            else none) = some t.control.priority
          rw [if_pos hr]
        have hstep : scanTasks tasks i (k + 1) (p, sel) =
            scanTasks tasks (i + 1) k (t.control.priority, some i) := by
          rw [scanTasks_succ, hti]
          show scanTasks tasks (i + 1) k
              (if t.control.state = TaskState.Ready ∧ p < t.control.priority then
                (t.control.priority, some i) else (p, sel)) =
            scanTasks tasks (i + 1) k (t.control.priority, some i)
          rw [if_pos (And.intro hr hp)]
        rw [hstep]
        by_cases hex : ∃ j' q', i + 1 ≤ j' ∧ j' < i + 1 + k ∧
            readyPrioAt tasks j' = some q' ∧ t.control.priority < q'
        · obtain ⟨j', q', hj1, hj2, hrd', hlt'⟩ := hex
          obtain ⟨b, qb, hscan, hb1, hb2, hrdb, hpb, hmax, hfirst⟩ :=
            ih (i + 1) t.control.priority (some i) j' q' hj1 hj2 hrd' hlt'
          refine ⟨b, qb, hscan, by omega, by omega, hrdb, by omega, ?_, ?_⟩
          · intro j'' q'' h1 h2 hq''
            by_cases hji : j'' = i
            · subst hji
              have hq : q'' = t.control.priority := by
                have h2i := hready_i.symm.trans hq''
                injection h2i with hinj
                exact hinj.symm
              omega
            · exact hmax j'' q'' (by omega) (by omega) hq''
          · intro j'' q'' h1 h2 hq''
            by_cases hji : j'' = i
            · subst hji
              have hq : q'' = t.control.priority := by
                have h2i := hready_i.symm.trans hq''
                injection h2i with hinj
                exact hinj.symm
              omega
            · exact hfirst j'' q'' (by omega) h2 hq''
        · push_neg at hex
          have hall : ∀ j' q', i + 1 ≤ j' → j' < i + 1 + k →
              readyPrioAt tasks j' = some q' → q' ≤ t.control.priority := by
            intro j' q' ha hb hc
            exact hex j' q' ha hb hc
          rw [scanTasks_none tasks k (i + 1) t.control.priority (some i) hall]
          refine ⟨i, t.control.priority, rfl, Nat.le_refl i, by omega, hready_i, hp, ?_, ?_⟩
          · intro j'' q'' h1 h2 hq''
            by_cases hji : j'' = i
            · subst hji
              have hq : q'' = t.control.priority := by
                have h2i := hready_i.symm.trans hq''
                injection h2i with hinj
                exact hinj.symm
              omega
            · exact hall j'' q'' (by omega) (by omega) hq''
          · intro j'' q'' h1 h2 hq''
            omega
      · have hstep : scanTasks tasks i (k + 1) (p, sel) =
            scanTasks tasks (i + 1) k (p, sel) := by
          rw [scanTasks_succ]
          have hmatch : (match tasks i with
              | some t =>
                  if t.control.state = TaskState.Ready ∧ p < t.control.priority then
                    (t.control.priority, some i)
                  else (p, sel)
              | none => (p, sel)) = ((p, sel) : Nat × Option Nat) := by
            cases hti : tasks i with
            | none => rfl
            | some t =>
                show (if t.control.state = TaskState.Ready ∧ p < t.control.priority then
                    (t.control.priority, some i) else (p, sel)) = ((p, sel) : Nat × Option Nat)
                exact if_neg (fun hc => hbeat ⟨t, hti, hc.1, hc.2⟩)
          rw [hmatch]
        have hji : j ≠ i := by
          intro hcon
          subst hcon
          obtain ⟨t, hti, hr, hpr⟩ := readyPrioAt_some tasks j q hready
          exact hbeat ⟨t, hti, hr, by omega⟩
        rw [hstep]
        obtain ⟨b, qb, hscan, hb1, hb2, hrdb, hpb, hmax, hfirst⟩ :=
          ih (i + 1) p sel j q (by omega) (by omega) hready hpq
        refine ⟨b, qb, hscan, by omega, by omega, hrdb, hpb, ?_, ?_⟩
        · intro j'' q'' h1 h2 hq''
          by_cases hji'' : j'' = i
          · subst hji''
            obtain ⟨t, hti, hr, hpr⟩ := readyPrioAt_some tasks j'' q'' hq''
            have : ¬ p < t.control.priority := fun hc => hbeat ⟨t, hti, hr, hc⟩
            omega
          · exact hmax j'' q'' (by omega) (by omega) hq''
        · intro j'' q'' h1 h2 hq''
          by_cases hji'' : j'' = i
          · subst hji''
            obtain ⟨t, hti, hr, hpr⟩ := readyPrioAt_some tasks j'' q'' hq''
            have : ¬ p < t.control.priority := fun hc => hbeat ⟨t, hti, hr, hc⟩
            omega
          · exact hfirst j'' q'' (by omega) h2 hq''

/-- C1 (amended): `schedule_next_task` returns the lowest-indexed
`Ready` task among those of maximal priority, but only considering
priorities strictly greater than `Idle` (0) — a `Ready` task of priority
0 is never selected.  When no `Ready` task has positive priority it
returns `idle_task_index` (whatever the state of that slot), and so it
never returns `None` after a successful `init`. -/
theorem schedule_next_task_selection (s : Scheduler) :
    ((∀ j q, j < maxTasks → readyPrioAt s.tasks j = some q → q = 0) →
       s.schedule_next_task = s.idle_task_index) ∧
    (∀ j q, j < maxTasks → readyPrioAt s.tasks j = some q → 0 < q →
       ∃ b qb, s.schedule_next_task = some b ∧ b < maxTasks ∧
         readyPrioAt s.tasks b = some qb ∧ 0 < qb ∧
         (∀ j' q', j' < maxTasks → readyPrioAt s.tasks j' = some q' → q' ≤ qb) ∧
         (∀ j' q', j' < b → readyPrioAt s.tasks j' = some q' → q' < qb)) ∧
    (s.idle_task_index.isSome = true → (s.schedule_next_task).isSome = true) := by
  have hpart1 : (∀ j q, j < maxTasks → readyPrioAt s.tasks j = some q → q = 0) →
      s.schedule_next_task = s.idle_task_index := by
    intro h
    unfold Scheduler.schedule_next_task
    rw [scanTasks_none s.tasks maxTasks 0 0 s.idle_task_index
        (fun j q _ h2 hq => by rw [h j q (by omega) hq])]
  have hpart2 : ∀ j q, j < maxTasks → readyPrioAt s.tasks j = some q → 0 < q →
      ∃ b qb, s.schedule_next_task = some b ∧ b < maxTasks ∧
        readyPrioAt s.tasks b = some qb ∧ 0 < qb ∧
        (∀ j' q', j' < maxTasks → readyPrioAt s.tasks j' = some q' → q' ≤ qb) ∧
        (∀ j' q', j' < b → readyPrioAt s.tasks j' = some q' → q' < qb) := by
    intro j q hj hready hq
    obtain ⟨b, qb, hscan, hb1, hb2, hrdb, hpb, hmax, hfirst⟩ :=
      scanTasks_found s.tasks maxTasks 0 0 s.idle_task_index j q (Nat.zero_le j)
        (by omega) hready hq
    refine ⟨b, qb, ?_, by omega, hrdb, hpb, ?_, ?_⟩
    · unfold Scheduler.schedule_next_task
      rw [hscan]
    · intro j' q' h1 h2
      exact hmax j' q' (Nat.zero_le j') (by omega) h2
    · intro j' q' h1 h2
      exact hfirst j' q' (Nat.zero_le j') h1 h2
  refine ⟨hpart1, hpart2, ?_⟩
  intro hidle
  by_cases hex : ∃ j q, j < maxTasks ∧ readyPrioAt s.tasks j = some q ∧ 0 < q
  · obtain ⟨j, q, hj, hready, hq⟩ := hex
    obtain ⟨b, qb, hscan, _⟩ := hpart2 j q hj hready hq
    rw [hscan]
    rfl
  · push_neg at hex
    rw [hpart1 (fun j q hj hready => by have := hex j q hj hready; omega)]
    exact hidle

/-- Witness for C1 (amended): the reachable state `sHigh`, whose slot 1
holds the only positive-priority `Ready` task. -/
theorem schedule_next_task_selection_witness :
    ∃ b qb, sHigh.schedule_next_task = some b ∧ b < maxTasks ∧
      readyPrioAt sHigh.tasks b = some qb ∧ 0 < qb ∧
      (∀ j' q', j' < maxTasks → readyPrioAt sHigh.tasks j' = some q' → q' ≤ qb) ∧
      (∀ j' q', j' < b → readyPrioAt sHigh.tasks j' = some q' → q' < qb) :=
  (schedule_next_task_selection sHigh).2.1 1 3 (by decide) (by decide) (by decide)

set_option maxRecDepth 8192 in
/-- C1 counterexample: in the reachable state `sLowPrio` the unique
`Ready` task sits in slot 1 (priority 0, the idle slot 0 being
`Running`), yet `schedule_next_task` returns slot 0, not slot 1. -/
theorem schedule_skips_idle_priority_ready :
    taskStateAt sLowPrio 1 = some TaskState.Ready ∧
    (∀ i, i < maxTasks → i ≠ 1 → taskStateAt sLowPrio i ≠ some TaskState.Ready) ∧
    sLowPrio.idle_task_index = some 0 ∧
    taskStateAt sLowPrio 0 = some TaskState.Running ∧
    sLowPrio.schedule_next_task = some 0 := by
  refine ⟨by decide, by decide, by decide, by decide, by decide⟩

/-! ### C2 — the single-`Running` invariant fails: `switch_task` never
returns the outgoing task to `Ready` -/

set_option maxRecDepth 8192 in
/-- C2 failing run: from a fresh scheduler, `init`, add task A (priority
`High`, slot 1) and task B (priority `Normal`, slot 2), then run two
dispatch iterations.  The first switches to A; when A is no longer
`Ready` the second switches to B without touching the state of A, so
both slots read `Running` — two `Running` tasks in one table, and the
outgoing task was not set back to `Ready`. -/
theorem switch_task_leaves_two_running :
    taskStateAt sTwoSteps 1 = some TaskState.Running ∧
    taskStateAt sTwoSteps 2 = some TaskState.Running ∧
    countRunning sTwoSteps = 2 ∧
    sTwoSteps.current_task = some 2 := by
  refine ⟨by decide, by decide, by decide, by decide⟩

/-! ### C7 — `semaphore_release` wakes nobody -/

set_option maxRecDepth 8192 in
/-- C7 failing run: in `sSemBlocked` the task in slot 1 is `Blocked`
after a failed acquire of semaphore 0 (count 0).  `semaphore_release 0`
succeeds and increments the count to 1, but the blocked task stays
`Blocked` — no task state is touched by the release. -/
theorem semaphore_release_does_not_wake :
    taskStateAt sSemBlocked 1 = some TaskState.Blocked ∧
    (sSemBlocked.semaphores 0).count = 0 ∧
    (sSemBlocked.semaphore_release 0).1 = Except.ok () ∧
    ((sSemBlocked.semaphore_release 0).2.semaphores 0).count = 1 ∧
    taskStateAt (sSemBlocked.semaphore_release 0).2 1 = some TaskState.Blocked ∧
    (sSemBlocked.semaphore_release 0).2.tasks = sSemBlocked.tasks := by
  refine ⟨by decide, by decide, rfl, by decide, by decide, rfl⟩

/-! ### C4 — event consumption discards non-matching entries -/

/-- Popping a nonempty well-formed queue yields the head entry and the
tail of the FIFO list. -/
lemma pop_cons (q : EventQueue) (hh : q.head < qcap) (ht : q.tail < qcap)
    (hpos : 0 < q.size) :
    q.pop = (q.events q.head,
      { q with events := Function.update q.events q.head none,
               head := (q.head + 1) % qcap }) ∧
    ((q.pop).2).toList = q.toList.tail ∧
    ((q.pop).2).wfq ∧
    q.toList = q.events q.head :: q.toList.tail := by
  have hsz : 0 < (qcap + q.tail - q.head) % qcap := hpos
  have hne : q.head ≠ q.tail := by unfold qcap at *; omega
  have hq : q.pop = (q.events q.head,
      { q with events := Function.update q.events q.head none,
               head := (q.head + 1) % qcap }) := by
    unfold EventQueue.pop
    rw [if_pos hne]
  obtain ⟨m, hm⟩ : ∃ m, (qcap + q.tail - q.head) % qcap = m + 1 :=
    ⟨(qcap + q.tail - q.head) % qcap - 1, by omega⟩
  have hmlt : m + 1 < qcap := by
    have : (qcap + q.tail - q.head) % qcap < qcap := Nat.mod_lt _ (by unfold qcap; omega)
    omega
  have hsz' : (qcap + q.tail - (q.head + 1) % qcap) % qcap = m := by
    unfold qcap at *; omega
  have hlist : q.toList = q.events q.head ::
      (List.range m).map (fun k => q.events ((q.head + Nat.succ k) % qcap)) := by
    show (List.range ((qcap + q.tail - q.head) % qcap)).map
        (fun k => q.events ((q.head + k) % qcap)) = _
    rw [hm, List.range_succ_eq_map, List.map_cons, List.map_map]
    have h0 : (q.head + 0) % qcap = q.head := by
      rw [Nat.add_zero]
      exact Nat.mod_eq_of_lt hh
    rw [h0]
    rfl
  have htail : ((q.pop).2).toList = q.toList.tail := by
    rw [hq, hlist, List.tail_cons]
    show (List.range ((qcap + q.tail - (q.head + 1) % qcap) % qcap)).map
        (fun k => Function.update q.events q.head none (((q.head + 1) % qcap + k) % qcap)) = _
    rw [hsz']
    apply List.map_congr_left
    intro k hk
    have hk' : k < m := List.mem_range.1 hk
    have hidx : ((q.head + 1) % qcap + k) % qcap = (q.head + Nat.succ k) % qcap := by
      unfold qcap at *; omega
    rw [hidx]
    apply Function.update_noteq
    unfold qcap at *; omega
  refine ⟨hq, htail, ?_, ?_⟩
  · rw [hq]
    exact ⟨Nat.mod_lt _ (by unfold qcap; omega), ht⟩
  · rw [hlist, List.tail_cons]

/-- `blockCurrent` touches only the task table. -/
lemma blockCurrent_preserves (s : Scheduler) :
    (blockCurrent s).ticks = s.ticks ∧ (blockCurrent s).event_queue = s.event_queue := by
  unfold blockCurrent
  cases s.current_task with
  | none => exact ⟨rfl, rfl⟩
  | some c => exact ⟨rfl, rfl⟩

/-- One dispatch iteration touches only the task table and
`current_task`. -/
lemma run_step_preserves (s : Scheduler) :
    (s.run_step).ticks = s.ticks ∧ (s.run_step).event_queue = s.event_queue := by
  unfold Scheduler.run_step Scheduler.switch_task
  cases s.schedule_next_task with
  | none => exact ⟨rfl, rfl⟩
  | some n => exact ⟨rfl, rfl⟩

/-- The wait loop pops and discards each non-matching event ahead of the
first match, returns the match, and leaves exactly the entries behind
the match in the queue. -/
lemma waitLoop_discards (event_type : EventType) (deadline : Nat) :
    ∀ (pre : List Event) (fuel : Nat) (s : Scheduler) (m : Event) (rest : List (Option Event)),
      s.event_queue.wfq →
      s.event_queue.toList = pre.map some ++ some m :: rest →
      (∀ e ∈ pre, e.event_type ≠ event_type) →
      m.event_type = event_type →
      s.ticks < deadline →
      pre.length < fuel →
      ∃ s', waitLoop event_type deadline fuel s = some (Except.ok m, s') ∧
        s'.event_queue.toList = rest ∧ s'.event_queue.wfq ∧ s'.ticks = s.ticks := by
  intro pre
  induction pre with
  | nil =>
      intro fuel s m rest hwfq hlist hpre hm hticks hfuel
      obtain ⟨f, rfl⟩ : ∃ f, fuel = f + 1 := ⟨fuel - 1, by omega⟩
      have hlen : s.event_queue.toList.length = s.event_queue.size := by
        unfold EventQueue.toList
        rw [List.length_map, List.length_range]
      have hpos : 0 < s.event_queue.size := by
        rw [← hlen, hlist]
        simp
      obtain ⟨hq, htail, hwfq', hcons⟩ := pop_cons s.event_queue hwfq.1 hwfq.2 hpos
      have hhead : s.event_queue.events s.event_queue.head = some m := by
        rw [hlist] at hcons
        simp only [List.map_nil, List.nil_append] at hcons
        exact (List.cons.injEq _ _ _ _ ▸ hcons).1.symm
      refine ⟨{ s with event_queue := (s.event_queue.pop).2 }, ?_, ?_, ?_, rfl⟩
      · have hp1 : (s.event_queue.pop).1 = some m := by rw [hq]; exact hhead
        have hbind : ((s.event_queue.pop).1.bind (fun event =>
            if event.event_type = event_type then some event else none)) = some m := by
          rw [hp1]
          show (if m.event_type = event_type then some m else none) = some m
          rw [if_pos hm]
        simp only [waitLoop, hbind]
      · rw [htail, hlist]
        simp
      · exact hwfq'
  | cons e pre ih =>
      intro fuel s m rest hwfq hlist hpre hm hticks hfuel
      obtain ⟨f, rfl⟩ : ∃ f, fuel = f + 1 := ⟨fuel - 1, by omega⟩
      have hlen : s.event_queue.toList.length = s.event_queue.size := by
        unfold EventQueue.toList
        rw [List.length_map, List.length_range]
      have hpos : 0 < s.event_queue.size := by
        rw [← hlen, hlist]
        simp
      obtain ⟨hq, htail, hwfq', hcons⟩ := pop_cons s.event_queue hwfq.1 hwfq.2 hpos
      have hhead : s.event_queue.events s.event_queue.head = some e := by
        rw [hlist] at hcons
        simp only [List.map_cons, List.cons_append] at hcons
        exact (List.cons.injEq _ _ _ _ ▸ hcons).1.symm
      have hene : e.event_type ≠ event_type := hpre e (List.mem_cons_self e pre)
      have hs1list : ((s.event_queue.pop).2).toList = pre.map some ++ some m :: rest := by
        rw [htail, hlist]
        simp
      set s1 : Scheduler := { s with event_queue := (s.event_queue.pop).2 } with hs1
      set s2 : Scheduler := (blockCurrent s1).run_step with hs2
      have hs2q : s2.event_queue = (s.event_queue.pop).2 := by
        rw [hs2, (run_step_preserves (blockCurrent s1)).2, (blockCurrent_preserves s1).2]
      have hs2t : s2.ticks = s.ticks := by
        rw [hs2, (run_step_preserves (blockCurrent s1)).1, (blockCurrent_preserves s1).1]
      obtain ⟨s', hloop, hlist', hwfq'', hticks'⟩ :=
        ih f s2 m rest (by rw [hs2q]; exact hwfq') (by rw [hs2q]; exact hs1list)
          (fun x hx => hpre x (List.mem_cons_of_mem e hx)) hm (by omega)
          (by simp at hfuel; omega)
      have hp1 : (s.event_queue.pop).1 = some e := by rw [hq]; exact hhead
      have hbind : ((s.event_queue.pop).1.bind (fun event =>
          if event.event_type = event_type then some event else none)) = none := by
        rw [hp1]
        show (if e.event_type = event_type then some e else none) = none
        rw [if_neg hene]
      refine ⟨s', ?_, hlist', hwfq'', by omega⟩
      simp only [waitLoop, hbind]
      rw [if_neg (by show ¬ s.ticks ≥ deadline; omega)]
      exact hloop

/-- C4 (amended): `wait_for_event` inspects the queue strictly from the
head, popping one entry per iteration; every non-matching event ahead of
the first event of the requested type is removed from the queue and
dropped (not retained), the matching event is returned, and exactly the
entries behind it remain, in order. -/
theorem wait_for_event_discards_nonmatching (s : Scheduler) (event_type : EventType)
    (timeout_ms fuel : Nat) (pre : List Event) (m : Event) (rest : List (Option Event))
    (hwfq : s.event_queue.wfq)
    (hlist : s.event_queue.toList = pre.map some ++ some m :: rest)
    (hpre : ∀ e ∈ pre, e.event_type ≠ event_type)
    (hm : m.event_type = event_type)
    (htmo : 0 < timeout_ms) (hnowrap : s.ticks + timeout_ms < u32Mod)
    (hfuel : pre.length < fuel) :
    ∃ s', s.wait_for_event event_type timeout_ms fuel = some (Except.ok m, s') ∧
      s'.event_queue.toList = rest ∧ s'.event_queue.wfq := by
  unfold Scheduler.wait_for_event
  rw [Nat.mod_eq_of_lt hnowrap]
  obtain ⟨s', h1, h2, h3, _⟩ :=
    waitLoop_discards event_type (s.ticks + timeout_ms) pre fuel s m rest hwfq hlist hpre hm
      (by omega) hfuel
  exact ⟨s', h1, h2, h3⟩

/-- Witness for C4 (amended): the reachable state `sTwoEvents` with a
`Gpio` event queued ahead of a `Timer` event. -/
theorem wait_for_event_discards_nonmatching_witness :
    ∃ s', sTwoEvents.wait_for_event EventType.Timer 5 2 =
        some (Except.ok { event_type := EventType.Timer, data := 2, timestamp := 0 }, s') ∧
      s'.event_queue.toList = [] ∧ s'.event_queue.wfq :=
  wait_for_event_discards_nonmatching sTwoEvents EventType.Timer 5 2
    [{ event_type := EventType.Gpio, data := 1, timestamp := 0 }]
    { event_type := EventType.Timer, data := 2, timestamp := 0 } []
    ⟨by decide, by decide⟩ (by decide) (by decide) (by decide) (by decide) (by decide)
    (by decide)

set_option maxRecDepth 8192 in
/-- C4 counterexample: in `sTwoEvents` a `Gpio` event sits ahead of a
`Timer` event; `wait_for_event(Timer)` returns the `Timer` event but the
queue is left empty — the non-matching `Gpio` event queued ahead of the
match was removed, not retained. -/
theorem wait_for_event_drops_gpio_ahead :
    sTwoEvents.event_queue.toList =
      [some { event_type := EventType.Gpio, data := 1, timestamp := 0 },
       some { event_type := EventType.Timer, data := 2, timestamp := 0 }] ∧
    (sTwoEvents.wait_for_event EventType.Timer 5 3).map
        (fun r => (r.1.toOption, r.2.event_queue.size)) =
      some (some { event_type := EventType.Timer, data := 2, timestamp := 0 }, 0) := by
  refine ⟨by decide, by decide⟩

end ATmega128
